import Mathlib

/-!
Shallow embedding of the day20 jigsaw-tile engine
(`src/day20/src/tile.rs`, `src/day20/src/grid.rs`, `src/day20/src/utils.rs`).

Rust `Vec<bool>` tile data is modelled as `List Bool`, `usize`/`u64` as `Nat`
(with explicit `% 2 ^ 32` where the Rust code folds edge bits into a `u32`),
fallible functions as `Except String _` (the string is the error message) and
functions that can hit an index-out-of-bounds abort as `Option _` (`none`
models the abort).
-/

namespace Day20

/-- Direction selector for column-edge fingerprints (`HorizontalEdge` in the
source). -/
inductive HorizontalEdge where
  | left
  | right
deriving DecidableEq, Repr

/-- Direction selector for row-edge fingerprints (`VerticalEdge` in the
source). -/
inductive VerticalEdge where
  | top
  | bottom
deriving DecidableEq, Repr

/-- The `Tile` struct: an id, a side length `size`, and a row-major boolean
grid `data` (well-formed tiles satisfy `data.length = size * size`). -/
structure Tile where
  id : Nat
  size : Nat
  data : List Bool
deriving DecidableEq, Repr

/-- Folding of a bit list into an edge fingerprint, modelling the Rust
`fold(0, |acc, &b| (acc << 1) + b as u32)`: the accumulator is a `u32`, so
each shift is taken modulo `2 ^ 32` (for tiles of side at most 32 the modulus
never truncates). -/
def foldBits (l : List Bool) : Nat :=
  l.foldl (fun acc b => (2 * acc) % (2 ^ 32) + (if b then 1 else 0)) 0

/-- Fuel-indexed core of `stepBy`; the fuel only bounds the recursion depth
(every step consumes at least one element), keeping the recursion structural
so that terms evaluate inside the kernel. -/
def stepByGo (n : Nat) : Nat → List Bool → List Bool
  | _, [] => []
  | 0, _ => []
  | fuel + 1, b :: rest => b :: stepByGo n fuel (rest.drop (n - 1))

/-- Every `n`-th element of a list starting with the first, modelling the Rust
iterator adapter `step_by(n)` (which yields an element, then skips `n - 1`). -/
def stepBy (n : Nat) (l : List Bool) : List Bool :=
  stepByGo n l.length l

/-- The `Tile::row_fwd` fingerprint: the top or bottom row folded
left-to-right. -/
def Tile.rowFwd (t : Tile) (e : VerticalEdge) : Nat :=
  let rowStart := match e with
    | .top => 0
    | .bottom => t.data.length - t.size
  foldBits ((t.data.drop rowStart).take t.size)

/-- The `Tile::row_rev` fingerprint: the top or bottom row folded
right-to-left. -/
def Tile.rowRev (t : Tile) (e : VerticalEdge) : Nat :=
  let rowStart := match e with
    | .top => 0
    | .bottom => t.data.length - t.size
  foldBits ((t.data.drop rowStart).take t.size).reverse

/-- The `Tile::col_fwd` fingerprint: the left or right column folded
top-to-bottom (`data[col..].iter().step_by(size)`). -/
def Tile.colFwd (t : Tile) (e : HorizontalEdge) : Nat :=
  let col := match e with
    | .left => 0
    | .right => t.size - 1
  foldBits (stepBy t.size (t.data.drop col))

/-- The `Tile::col_rev` fingerprint: the left or right column folded
bottom-to-top. -/
def Tile.colRev (t : Tile) (e : HorizontalEdge) : Nat :=
  let col := match e with
    | .left => 0
    | .right => t.size - 1
  foldBits (stepBy t.size (t.data.drop col)).reverse

/-- The 8 border fingerprints in the order `Tile::parse` lists them. -/
def Tile.edgesParseOrder (t : Tile) : List Nat :=
  [t.rowFwd .top, t.rowFwd .bottom, t.rowRev .top, t.rowRev .bottom,
   t.colFwd .left, t.colFwd .right, t.colRev .left, t.colRev .right]

/-- The 8 border fingerprints in the order `Tile::connect` lists them. -/
def Tile.edgesConnectOrder (t : Tile) : List Nat :=
  [t.rowFwd .top, t.rowFwd .bottom, t.colFwd .left, t.colFwd .right,
   t.rowRev .top, t.rowRev .bottom, t.colRev .left, t.colRev .right]

/-- The `Tile::connect` candidate-adjacency test: this tile's fingerprints
that also occur among the other tile's fingerprints. -/
def Tile.connect (a b : Tile) : List Nat :=
  a.edgesConnectOrder.filter (fun e => b.edgesConnectOrder.contains e)

/-- The `Tile::right_edge` accessor. -/
def Tile.rightEdge (t : Tile) : Nat := t.colFwd .right

/-- The `Tile::bottom_edge` accessor. -/
def Tile.bottomEdge (t : Tile) : Nat := t.rowFwd .bottom

/-- Fuel-indexed core of `chunksOf`; the fuel only bounds the recursion depth
(every chunk consumes at least one element when `n ≠ 0`), keeping the
recursion structural so that terms evaluate inside the kernel. -/
def chunksOfGo (n : Nat) : Nat → List Bool → List (List Bool)
  | _, [] => []
  | 0, _ => []
  | fuel + 1, l@(_ :: _) =>
    if n = 0 then [] else l.take n :: chunksOfGo n fuel (l.drop n)

/-- Splitting of a list into consecutive chunks of length `n`, modelling the
Rust `chunks`/`chunks_mut` slice adapters (for `n = 0` the Rust call aborts;
callers of this model guard that case separately). -/
def chunksOf (n : Nat) (l : List Bool) : List (List Bool) :=
  chunksOfGo n l.length l

/-- The `Tile::flip_horizontal` transform: every row is reversed in place
(`data.chunks_mut(size).for_each(|r| r.reverse())`). -/
def Tile.flipHorizontal (t : Tile) : Tile :=
  ⟨t.id, t.size, ((chunksOf t.size t.data).map List.reverse).flatten⟩

/-- Index map of `Tile::rotate_right`: the source loop writes
`dst[x * size + (size - 1 - y)] = src[y * size + x]`, i.e. destination cell
`i` reads source cell `(size - 1 - i % size) * size + i / size`. -/
def rotIdx (size i : Nat) : Nat :=
  (size - 1 - i % size) * size + i / size

/-- The `Tile::rotate_right` transform, expressed as the destination-indexed
rebuild of the in-place loop: cell `i` of the result is cell `rotIdx size i`
of the original data. -/
def Tile.rotateRight (t : Tile) : Tile :=
  ⟨t.id, t.size,
    (List.range (t.size * t.size)).map fun i => t.data.getD (rotIdx t.size i) false⟩

/-- The `Tile::roughness` count of set cells. -/
def Tile.roughness (t : Tile) : Nat :=
  t.data.countP (fun b => b)

/-- The `EdgeConstraints` value type: four optional fingerprint requirements,
field order as in the source. -/
structure EdgeConstraints where
  left : Option Nat
  right : Option Nat
  top : Option Nat
  bottom : Option Nat
deriving DecidableEq, Repr

/-- The `EdgeConstraints::right` constructor (only the right border fixed). -/
def EdgeConstraints.rightOnly (v : Nat) : EdgeConstraints :=
  ⟨none, some v, none, none⟩

/-- The per-trial check inside `Tile::orient`: every set constraint field must
equal the corresponding forward fingerprint (`map_or(true, ..)` on each
`Option`). -/
def Tile.oriented (t : Tile) (c : EdgeConstraints) : Bool :=
  c.left.all (fun l => l == t.colFwd .left) &&
  c.right.all (fun r => r == t.colFwd .right) &&
  c.top.all (fun v => v == t.rowFwd .top) &&
  c.bottom.all (fun v => v == t.rowFwd .bottom)

/-- The mutation applied at the end of iteration `i` of the `orient` /
`remove_monsters` loops: `rotate_right()`, then `flip_horizontal()` when
`i == 3`. -/
def orientStep (t : Tile) (i : Nat) : Tile :=
  let t' := t.rotateRight
  if i == 3 then t'.flipHorizontal else t'

/-- The `for i in 0..8` loop of `Tile::orient`: `fuel` counts the remaining
iterations and `i` is the Rust loop counter; the loop returns true at the
first orientation passing the check, otherwise applies `orientStep` and
continues, and returns false once the iterations are exhausted.  The returned
tile is the mutated `self`. -/
def orientGo (c : EdgeConstraints) : Nat → Nat → Tile → Bool × Tile
  | 0, _, t => (false, t)
  | fuel + 1, i, t =>
    if t.oriented c then (true, t)
    else orientGo c fuel (i + 1) (orientStep t i)

/-- The `Tile::orient` search (8 trials starting at loop counter 0). -/
def Tile.orient (t : Tile) (c : EdgeConstraints) : Bool × Tile :=
  orientGo c 8 0 t

/-- Composition of `fuel` consecutive `orientStep` mutations starting at loop
counter `i`; this is the net effect of a run of the `orient` loop in which
every check fails. -/
def applySteps : Nat → Nat → Tile → Tile
  | 0, _, t => t
  | fuel + 1, i, t => applySteps fuel (i + 1) (orientStep t i)

/-- The fixed `MONSTER_PATTERN` constant (`'#'` cells are true). -/
def monsterPattern : List (List Bool) :=
  ["                  # ",
   "#    ##    ##    ###",
   " #  #  #  #  #  #   "].map fun line => line.data.map fun c => c == '#'

/-- The `MONSTER_HEIGHT` constant. -/
def monsterHeight : Nat := monsterPattern.length

/-- The `MONSTER_WIDTH` constant. -/
def monsterWidth : Nat := (monsterPattern.headD []).length

/-- The `check_line` helper: every pattern bit must be covered by a set tile
bit (`zip` + `all |(t, m)| t || !m`). -/
def checkLine (row monsterRow : List Bool) : Bool :=
  (row.zip monsterRow).all fun p => p.1 || !p.2

/-- The `update_line` helper: pattern bits are cleared from the tile row
(`*t &= !m`); elements of `row` beyond `monsterRow` are unchanged, matching
the mutable `zip`. -/
def updateLine (row monsterRow : List Bool) : List Bool :=
  ((row.zip monsterRow).map fun p => p.1 && !p.2) ++ row.drop monsterRow.length

/-- The window test of `remove_monsters` at column `x` of a 3-row slice:
each slice row restricted to `x..x + MONSTER_WIDTH` is checked against the
corresponding pattern row. -/
def windowCheck (rowSlice : List (List Bool)) (x : Nat) : Bool :=
  ((rowSlice.map fun r => (r.drop x).take monsterWidth).zip monsterPattern).all
    fun p => checkLine p.1 p.2

/-- The window update of `remove_monsters` at column `x` of a 3-row slice:
each slice row has `update_line` applied to its `x..x + MONSTER_WIDTH`
segment, the rest of the row kept. -/
def windowUpdate (rowSlice : List (List Bool)) (x : Nat) : List (List Bool) :=
  (rowSlice.zip monsterPattern).map fun p =>
    p.1.take x ++ updateLine ((p.1.drop x).take monsterWidth) p.2 ++
      p.1.drop (x + monsterWidth)

/-- The inner `for x in 0..self.size - MONSTER_WIDTH` loop of
`remove_monsters` on one 3-row slice, threading the mutated slice and the
`found_monsters` flag. -/
def scanXs (xs : List Nat) (acc : List (List Bool) × Bool) :
    List (List Bool) × Bool :=
  xs.foldl (fun acc x =>
    if windowCheck acc.1 x then (windowUpdate acc.1 x, true) else acc) acc

/-- One iteration of the `for y in ..` loop of `remove_monsters`: slice rows
`y..y + MONSTER_HEIGHT`, run the `x` loop over it, and write the slice back.
`size` is the tile side (bounding the `x` range as `0..size - MONSTER_WIDTH`,
exclusive). -/
def processY (size : Nat) (acc : List (List Bool) × Bool) (y : Nat) :
    List (List Bool) × Bool :=
  let rows := acc.1
  let slice := (rows.drop y).take monsterHeight
  let res := scanXs (List.range (size - monsterWidth)) (slice, acc.2)
  (rows.take y ++ res.1 ++ rows.drop (y + monsterHeight), res.2)

/-- One orientation pass of `remove_monsters`: the `y` loop over
`0..rows.len() - MONSTER_HEIGHT` (exclusive), starting with
`found_monsters = false`. -/
def scanOrientation (size : Nat) (rows : List (List Bool)) :
    List (List Bool) × Bool :=
  (List.range (rows.length - monsterHeight)).foldl (processY size) (rows, false)

/-- Whether one orientation pass of `remove_monsters` aborts on an
out-of-bounds slice index: with fewer than `MONSTER_HEIGHT` rows the first
`y` slice is out of range, and when the `y` range is non-empty but the side
is below `MONSTER_WIDTH` the first `x` slice is out of range (in release mode
the `usize` subtractions wrap, making those loop ranges non-empty; in debug
mode the subtractions themselves abort).  `chunks_mut(0)` also aborts. -/
def scanPanics (size : Nat) (rows : List (List Bool)) : Bool :=
  size == 0 || rows.length < monsterHeight ||
    (decide (0 < rows.length - monsterHeight) && size < monsterWidth)

/-- The `for i in 0..8` loop of `Tile::remove_monsters`: scan the current
orientation; stop (keeping the scrubbed data) once a pass found a match,
otherwise rotate (and flip after iteration 3) and continue; `none` models an
out-of-bounds abort inside a pass. -/
def removeMonstersGo : Nat → Nat → Tile → Option Tile
  | 0, _, t => some t
  | fuel + 1, i, t =>
    let rows := chunksOf t.size t.data
    if scanPanics t.size rows then none
    else
      let res := scanOrientation t.size rows
      let t' : Tile := ⟨t.id, t.size, res.1.flatten⟩
      if res.2 then some t'
      else removeMonstersGo fuel (i + 1) (orientStep t' i)

/-- The `Tile::remove_monsters` scrubber (8 orientation passes starting at
loop counter 0). -/
def Tile.removeMonsters (t : Tile) : Option Tile :=
  removeMonstersGo 8 0 t

/-- Whether any pattern-sized window of `rows` (a tile of side `size`), over
the full inclusive ranges `0 ≤ y ≤ rows.length - MONSTER_HEIGHT` and
`0 ≤ x ≤ size - MONSTER_WIDTH`, matches the monster pattern. -/
def anyMonster (size : Nat) (rows : List (List Bool)) : Bool :=
  (List.range (rows.length + 1 - monsterHeight)).any fun y =>
    (List.range (size + 1 - monsterWidth)).any fun x =>
      windowCheck ((rows.drop y).take monsterHeight) x

/-- The successive tile states visited by the `remove_monsters` /`orient`
loops when no iteration exits early: the state before trial `i`, for `fuel`
trials starting at loop counter `i`. -/
def statesGo : Nat → Nat → Tile → List Tile
  | 0, _, _ => []
  | fuel + 1, i, t => t :: statesGo fuel (i + 1) (orientStep t i)

/-- Whether no window of any of the 8 orientations of `t` (over the full
inclusive window ranges) matches the monster pattern. -/
def monsterFree (t : Tile) : Bool :=
  (statesGo 8 0 t).all fun s => !(anyMonster s.size (chunksOf s.size s.data))

/-- The `write_row` helper of `Tile::parse`: append one bit per character
('.' pushes false, '#' pushes true, anything else is a parse error). -/
def writeRow (data : List Bool) (row : String) : Except String (List Bool) :=
  row.data.foldlM (fun d c =>
    if c = '.' then Except.ok (d ++ [false])
    else if c = '#' then Except.ok (d ++ [true])
    else Except.error "Unknown character") data

/-- The bits of one row under the `'#' ↦ true` reading (the value `write_row`
appends when every character is valid). -/
def lineBits (s : String) : List Bool :=
  s.data.map fun c => c == '#'

/-- The adjacent-distinctness check of `Tile::parse` on the sorted edge
list (`windows(2).all(|w| w[0] != w[1])`). -/
def adjacentDistinct (l : List Nat) : Bool :=
  (l.zip l.tail).all fun p => p.1 != p.2

/-- The `Tile::parse` function.  It consumes the first row plus up to
`size - 1` further rows of `lines` (the Rust iterator is advanced in place;
here the unconsumed suffix is returned alongside the tile).  The sort of the
edge values models `sort_unstable` with an insertion sort. -/
def tileParse (lines : List String) (id : Nat) :
    Except String (Tile × List String) :=
  match lines with
  | [] => Except.error "Missing tile data"
  | firstRow :: rest =>
    let size := firstRow.data.length
    if size = 0 then Except.error "Empty tile"
    else if size > 32 then Except.error "Tiles larger than 32x32 not supported"
    else
      match writeRow [] firstRow with
      | Except.error e => Except.error e
      | Except.ok d0 =>
        match (rest.take (size - 1)).foldlM
            (fun (acc : List Bool × Nat) row =>
              match writeRow acc.1 row with
              | Except.error e => Except.error e
              | Except.ok d => Except.ok (d, acc.2 + 1)) (d0, 1) with
        | Except.error e => Except.error e
        | Except.ok (data, rows) =>
          if rows ≠ size then Except.error "Incomplete tile"
          else
            let tile : Tile := ⟨id, size, data⟩
            if adjacentDistinct (List.insertionSort (· ≤ ·) tile.edgesParseOrder)
            then Except.ok (tile, rest.drop (size - 1))
            else Except.error "Ambiguous edge values"

/-- The `parse_id` helper: strip the prefix `"Tile "` and the suffix `':'`,
then parse the rest as a `u64` (digits with an optional leading '+', value
below `2 ^ 64`). -/
def parseId (line : String) : Except String Nat :=
  let cs := line.data
  let pre := "Tile ".data
  if cs.take pre.length = pre then
    let body := cs.drop pre.length
    if body.getLast? = some ':' then
      let num := body.dropLast
      let ds := match num with
        | '+' :: rest => rest
        | _ => num
      if ds ≠ [] ∧ ds.all Char.isDigit then
        let v := ds.foldl (fun acc c => acc * 10 + (c.toNat - 48)) 0
        if v < 2 ^ 64 then Except.ok v
        else Except.error "Could not parse id"
      else Except.error "Could not parse id"
    else Except.error "Could not parse id"
  else Except.error "Could not parse id"

/-- The `parse_tiles` loop: skip blank lines, parse a header and a tile,
enforce a uniform tile size (`tileSize = 0` means not yet set, as in the
source), and collect the tiles.  The fuel only bounds the recursion depth
(every iteration consumes at least one line, so `lines.length + 1` fuel never
runs out — see `parseTilesGo_irrel`); it keeps the recursion structural so
that terms evaluate inside the kernel. -/
def parseTilesGo : Nat → Nat → List String → Except String (List Tile)
  | _, _, [] => Except.ok []
  | 0, _, _ => Except.error "Out of fuel"
  | fuel + 1, tileSize, row :: rest =>
    if row.data.isEmpty then parseTilesGo fuel tileSize rest
    else
      match parseId row with
      | Except.error e => Except.error e
      | Except.ok id =>
        match tileParse rest id with
        | Except.error e => Except.error e
        | Except.ok (tile, remaining) =>
          if tileSize ≠ 0 ∧ tile.size ≠ tileSize then
            Except.error "Inconsistent tile sizes"
          else
            match parseTilesGo fuel
                (if tileSize = 0 then tile.size else tileSize) remaining with
            | Except.error e => Except.error e
            | Except.ok tiles => Except.ok (tile :: tiles)

/-- The `parse_tiles` entry point (`tile_size` starts at the 0 sentinel). -/
def parseTiles (lines : List String) : Except String (List Tile) :=
  parseTilesGo (lines.length + 1) 0 lines

/-- Fuel-indexed loop of `sqrt_exact`: test sizes upward until the square
reaches or passes `count`. -/
def sqrtExactGo (count : Nat) : Nat → Nat → Option Nat
  | 0, _ => none
  | fuel + 1, size =>
    if size * size = count then some size
    else if size * size > count then none
    else sqrtExactGo count fuel (size + 1)

/-- The `sqrt_exact` utility: the exact integer square root, if any.  The
fuel `count + 2` is enough for the loop to reach its exit in every case. -/
def sqrtExact (count : Nat) : Option Nat :=
  sqrtExactGo count (count + 2) 0

/-- The non-empty `connect` results of `tile` against every other pool tile
(tiles sharing `tile`'s id are skipped), as in the closure of
`find_corner`. -/
def connectsOf (pool : List Tile) (t : Tile) : List (List Nat) :=
  ((pool.filter fun u => u.id ≠ t.id).map fun u => t.connect u).filter
    fun c => !c.isEmpty

/-- The `find_map` scan of `find_corner`: the first pool index whose tile has
exactly two non-empty `connect` results, together with those two results. -/
def findCornerScanGo (pool : List Tile) : Nat → List Tile →
    Option (Nat × List Nat × List Nat)
  | _, [] => none
  | idx, t :: rest =>
    match connectsOf pool t with
    | [e1, e2] => some (idx, e1, e2)
    | _ => findCornerScanGo pool (idx + 1) rest

/-- The `(e1, e2)` candidate pairs tried when orienting the corner
(`edges1 × edges2` via `flat_map`). -/
def cornerPairs (edges1 edges2 : List Nat) : List (Nat × Nat) :=
  edges1.flatMap fun e1 => edges2.map fun e2 => (e1, e2)

/-- The short-circuiting `any` over corner orientation attempts; each failed
`orient` call leaves its mutation on the tile, which the next attempt starts
from. -/
def orientAnyPairs : List (Nat × Nat) → Tile → Bool × Tile
  | [], t => (false, t)
  | (e1, e2) :: rest, t =>
    let res := t.orient ⟨none, some e1, none, some e2⟩
    if res.1 then (true, res.2) else orientAnyPairs rest res.2

/-- The `find_corner` routine: locate a tile with exactly two candidate
neighbours, then try to orient it so that its right and bottom edges match
the two `connect` overlaps.  The returned pool carries the in-place
mutations of the orientation attempts. -/
def findCorner (pool : List Tile) : Option Nat × List Tile :=
  match findCornerScanGo pool 0 pool with
  | none => (none, pool)
  | some (idx, edges1, edges2) =>
    let res := orientAnyPairs (cornerPairs edges1 edges2)
      (pool.getD idx ⟨0, 0, []⟩)
    ((if res.1 then some idx else none), pool.set idx res.2)

/-- The inner placement scan of `build_grid`: walk the pool, orienting each
tile against the constraints (keeping the mutation on failure); on the first
success, hand back the oriented tile and the pool without it. -/
def orientScan (c : EdgeConstraints) : List Tile →
    List Tile ⊕ (Tile × List Tile)
  | [] => Sum.inl []
  | t :: rest =>
    let res := t.orient c
    if res.1 then Sum.inr (res.2, rest)
    else
      match orientScan c rest with
      | Sum.inl rest' => Sum.inl (res.2 :: rest')
      | Sum.inr (found, rest') => Sum.inr (found, res.2 :: rest')

/-- The edge constraints imposed on grid cell `idx` by the already placed
left neighbour (when `idx % size ≠ 0`) and top neighbour (when
`idx ≥ size`), as built inside the `build_grid` loop. -/
def cellConstraints (size : Nat) (tiles : List Tile) : EdgeConstraints :=
  let idx := tiles.length
  let c0 : EdgeConstraints := ⟨none, none, none, none⟩
  let c1 := if idx % size ≠ 0 then
      { c0 with left := some (tiles.getD (idx - 1) ⟨0, 0, []⟩).rightEdge }
    else c0
  if idx ≥ size then
    { c1 with top := some (tiles.getD (idx - size) ⟨0, 0, []⟩).bottomEdge }
  else c1

/-- The `while !parsed_tiles.is_empty()` loop of `build_grid`: derive the
edge constraints of grid cell `tiles.length` from the already placed left
and top neighbours, find and place the first pool tile that can satisfy
them, or fail.  The fuel only bounds the recursion depth (every iteration
removes one pool tile, so `pool.length` fuel never runs out — see
`buildGridGo_irrel`); it keeps the recursion structural so that terms
evaluate inside the kernel. -/
def buildGridGo : Nat → Nat → List Tile → List Tile → Except String (List Tile)
  | _, _, [], tiles => Except.ok tiles
  | 0, _, _, _ => Except.error "Out of fuel"
  | fuel + 1, size, pool@(_ :: _), tiles =>
    match orientScan (cellConstraints size tiles) pool with
    | Sum.inl _ => Except.error "Ambiguous grid edge constraints"
    | Sum.inr (found, pool') => buildGridGo fuel size pool' (tiles ++ [found])

/-- The `build_grid` routine: seed the placed list with the corner tile
removed from the pool, then run the placement loop.  The corner index comes
from `find_corner` and is always in range; the `getD` default is never
read. -/
def buildGrid (pool : List Tile) (corner size : Nat) :
    Except String (List Tile) :=
  buildGridGo pool.length size (pool.eraseIdx corner) [pool.getD corner ⟨0, 0, []⟩]

/-- The `Grid` struct. -/
structure Grid where
  size : Nat
  tileSize : Nat
  tiles : List Tile
deriving DecidableEq, Repr

/-- The `Grid::parse` pipeline.  `none` models the unguarded
`parsed_tiles[0]` indexing, which aborts when the parsed pool is empty;
every other failure is a returned error value. -/
def gridParse (lines : List String) : Option (Except String Grid) :=
  match parseTiles lines with
  | Except.error e => some (Except.error e)
  | Except.ok parsedTiles =>
    match sqrtExact parsedTiles.length with
    | none => some (Except.error "Non-square grid")
    | some size =>
      match parsedTiles with
      | [] => none
      | t0 :: _ =>
        let tileSize := t0.size
        match findCorner parsedTiles with
        | (none, _) => some (Except.error "Could not find suitable top-left corner")
        | (some corner, pool) =>
          match buildGrid pool corner size with
          | Except.error e => some (Except.error e)
          | Except.ok tiles => some (Except.ok ⟨size, tileSize, tiles⟩)

/-- A 2×2 tile with a single set cell; no orientation of it can satisfy a
left-edge constraint of 99 (2-bit fingerprints are below 4). -/
def failTile : Tile := ⟨5, 2, [true, false, false, false]⟩

/-- Constraints no orientation of `failTile` can meet. -/
def failConstraints : EdgeConstraints := ⟨some 99, none, none, none⟩

/-- A 1×1 tile used to witness the symmetry statement. -/
def oneTileA : Tile := ⟨1, 1, [true]⟩

/-- A second 1×1 tile used to witness the symmetry statement. -/
def oneTileB : Tile := ⟨2, 1, [true]⟩

/-- The 3×3 fixture of the repository's `rotate_right_test`. -/
def fixtureTile : Tile :=
  ⟨0, 3, [true, false, true, true, true, false, false, false, true]⟩

/-- A 3×3 tile with one set cell: too small for the pattern, so no
orientation contains a monster. -/
def quietTile : Tile :=
  ⟨7, 3, [true, false, false, false, false, false, false, false, false]⟩

/-- A 20×20 tile whose top-left 3×20 window is exactly the monster pattern
(all other cells clear). -/
def monsterTile : Tile :=
  ⟨0, 20, (monsterPattern ++ List.replicate 17 (List.replicate 20 false)).flatten⟩

/-- Tile rows whose second row is shorter than the first (3 characters
against 4), with every character in `{'.', '#'}`. -/
def raggedLines : List String := ["#...", "...", "##..", "###."]

/-- Rows of a 4×4 tile whose 8 border fingerprints are pairwise distinct. -/
def distinctTileLines : List String := ["##..", "#..#", "....", "#..."]

/-- A 2×2 grid input of four 8×8 tiles cut from one 15×15 image (adjacent
tiles share their facing border), on which the whole `Grid::parse` pipeline
succeeds. -/
def gridLines : List String :=
  ["Tile 11:", ".#.##...", "###..#.#", "###..#.#", ".###....",
   "########", ".#.#..##", "#####.#.", "#..#....", "",
   "Tile 22:", "...#.#.#", "#.###...", "####.###", ".#.##.##",
   "##.###..", "#....#..", "..###...", ".##.#.#.", "",
   "Tile 33:", "#..#....", "#...###.", "..#.###.", "..#..###",
   "..####..", "#.##.##.", "#.###.##", "#..#.###", "",
   "Tile 44:", ".##.#.#.", "....#.##", ".#.....#", "###.####",
   ".#.####.", ".####..#", "##.#..#.", "####.#.#"]

/-- The tiles parsed from `gridLines`. -/
def gridParsed : List Tile :=
  (parseTiles gridLines).toOption.getD []

/-- The grid assembled from `gridLines`. -/
def gridResult : Grid :=
  match gridParse gridLines with
  | some (Except.ok g) => g
  | _ => ⟨0, 0, []⟩

/-- Bound used for the recursion of `parseTilesGo`: `Tile::parse` always
consumes at least the first row of its input on success. -/
theorem tileParse_remaining_lt (ls : List String) (id : Nat) (t : Tile)
    (rem : List String) (h : tileParse ls id = Except.ok (t, rem)) :
    rem.length < ls.length := by
  match ls with
  | [] => simp [tileParse] at h
  | firstRow :: rest =>
    simp only [tileParse] at h
    split at h
    · exact absurd h (by simp)
    · split at h
      · exact absurd h (by simp)
      · split at h
        · exact absurd h (by simp)
        · split at h
          · exact absurd h (by simp)
          · split at h
            · exact absurd h (by simp)
            · split at h
              · injection h with h'
                injection h' with h1 h2
                subst h2
                simp only [List.length_cons, List.length_drop]
                omega
              · exact absurd h (by simp)

/-- The fuel of `parseTilesGo` is irrelevant as long as it exceeds the number
of lines: the loop consumes at least one line per iteration. -/
theorem parseTilesGo_irrel :
    ∀ (fuel fuel' tileSize : Nat) (lines : List String),
      lines.length < fuel → lines.length < fuel' →
      parseTilesGo fuel tileSize lines = parseTilesGo fuel' tileSize lines := by
  intro fuel
  induction fuel with
  | zero => intro fuel' ts lines h h'; omega
  | succ fuel ih =>
    intro fuel' ts lines h h'
    match lines with
    | [] =>
      match fuel' with
      | 0 => omega
      | fuel'' + 1 => rfl
    | row :: rest =>
      match fuel' with
      | 0 => omega
      | fuel'' + 1 =>
        simp only [parseTilesGo]
        have hrest : rest.length < fuel := by
          simp only [List.length_cons] at h; omega
        have hrest' : rest.length < fuel'' := by
          simp only [List.length_cons] at h'; omega
        split
        · exact ih fuel'' ts rest hrest hrest'
        · cases hid : parseId row with
          | error e => simp [hid]
          | ok id =>
            simp only [hid]
            cases htp : tileParse rest id with
            | error e => simp [htp]
            | ok pr =>
              obtain ⟨tile, remaining⟩ := pr
              simp only [htp]
              have hrem := tileParse_remaining_lt rest id tile remaining htp
              split
              · rfl
              · rw [ih fuel'' (if ts = 0 then tile.size else ts) remaining
                  (by omega) (by omega)]

/-- Bound used for the recursion of `buildGridGo`: a successful `orientScan`
removes exactly one tile from the pool. -/
theorem orientScan_inr_length (c : EdgeConstraints) :
    ∀ (pool : List Tile) (t : Tile) (rest : List Tile),
      orientScan c pool = Sum.inr (t, rest) → rest.length + 1 = pool.length := by
  intro pool
  induction pool with
  | nil => intro t rest h; simp [orientScan] at h
  | cons hd tl ih =>
    intro t rest h
    simp only [orientScan] at h
    split at h
    · injection h with h'
      injection h' with h1 h2
      subst h2; simp
    · split at h
      · exact absurd h (by simp)
      · rename_i found rest' heq
        injection h with h'
        injection h' with h1 h2
        subst h2
        have := ih found rest' heq
        simp only [List.length_cons]
        omega

/-- The fuel of `buildGridGo` is irrelevant as long as it reaches the pool
size: the loop removes one pool tile per iteration. -/
theorem buildGridGo_irrel :
    ∀ (fuel fuel' size : Nat) (pool tiles : List Tile),
      pool.length ≤ fuel → pool.length ≤ fuel' →
      buildGridGo fuel size pool tiles = buildGridGo fuel' size pool tiles := by
  intro fuel
  induction fuel with
  | zero =>
    intro fuel' size pool tiles h h'
    have : pool = [] := List.eq_nil_of_length_eq_zero (by omega)
    subst this
    match fuel' with
    | 0 => rfl
    | fuel'' + 1 => rfl
  | succ fuel ih =>
    intro fuel' size pool tiles h h'
    match pool with
    | [] =>
      match fuel' with
      | 0 => rfl
      | fuel'' + 1 => rfl
    | t :: rest =>
      match fuel' with
      | 0 => simp at h'
      | fuel'' + 1 =>
        simp only [buildGridGo]
        match hscan : orientScan (cellConstraints size tiles) (t :: rest) with
        | Sum.inl _ => rfl
        | Sum.inr (found, pool') =>
          have hlen := orientScan_inr_length _ _ found pool' hscan
          simp only [List.length_cons] at h h' hlen
          exact ih fuel'' size pool' (tiles ++ [found]) (by omega) (by omega)

/-! ### Transform algebra -/

theorem rotateRight_id (t : Tile) : t.rotateRight.id = t.id := rfl

theorem rotateRight_size (t : Tile) : t.rotateRight.size = t.size := rfl

theorem rotateRight_length (t : Tile) :
    t.rotateRight.data.length = t.size * t.size := by
  simp [Tile.rotateRight]

theorem flipHorizontal_id (t : Tile) : t.flipHorizontal.id = t.id := rfl

theorem flipHorizontal_size (t : Tile) : t.flipHorizontal.size = t.size := rfl

theorem rotIdx_lt (n i : Nat) (h : i < n * n) : rotIdx n i < n * n := by
  have hn : 0 < n := by
    rcases Nat.eq_zero_or_pos n with h0 | h0
    · subst h0; simp at h
    · exact h0
  have hx : i % n < n := Nat.mod_lt _ hn
  have hy : i / n < n := (Nat.div_lt_iff_lt_mul hn).mpr (by omega)
  have h1 : n - 1 - i % n ≤ n - 1 := by omega
  have h2 : (n - 1 - i % n) * n ≤ (n - 1) * n := Nat.mul_le_mul_right n h1
  have h3 : (n - 1) * n = n * n - n := by rw [Nat.sub_mul, one_mul]
  have h4 : n ≤ n * n := Nat.le_mul_of_pos_left n hn
  unfold rotIdx
  omega

theorem rotIdx_eval (n y x : Nat) (hn : 0 < n) (hx : x < n) :
    rotIdx n (y * n + x) = (n - 1 - x) * n + y := by
  unfold rotIdx
  have hdiv : (y * n + x) / n = y := by
    rw [Nat.mul_comm y n, Nat.mul_add_div hn, Nat.div_eq_of_lt hx]
    omega
  have hmod : (y * n + x) % n = x := by
    rw [Nat.mul_comm y n, Nat.mul_add_mod]
    exact Nat.mod_eq_of_lt hx
  rw [hdiv, hmod]

theorem rotIdx_four (n i : Nat) (h : i < n * n) :
    rotIdx n (rotIdx n (rotIdx n (rotIdx n i))) = i := by
  have hn : 0 < n := by
    rcases Nat.eq_zero_or_pos n with h0 | h0
    · subst h0; simp at h
    · exact h0
  obtain ⟨q, r, hr, hq, hi⟩ : ∃ q r, r < n ∧ q < n ∧ i = q * n + r :=
    ⟨i / n, i % n, Nat.mod_lt _ hn, (Nat.div_lt_iff_lt_mul hn).mpr (by omega),
      by rw [Nat.mul_comm]; exact (Nat.div_add_mod i n).symm⟩
  subst hi
  rw [rotIdx_eval n q r hn hr]
  rw [rotIdx_eval n (n - 1 - r) q hn hq]
  rw [rotIdx_eval n (n - 1 - q) (n - 1 - r) hn (by omega)]
  have e1 : n - 1 - (n - 1 - r) = r := by omega
  rw [e1, rotIdx_eval n r (n - 1 - q) hn (by omega)]
  have e2 : n - 1 - (n - 1 - q) = q := by omega
  rw [e2]

theorem rotateRight_data_getD (t : Tile) (i : Nat) (h : i < t.size * t.size) :
    t.rotateRight.data.getD i false = t.data.getD (rotIdx t.size i) false := by
  have hlen : t.rotateRight.data.length = t.size * t.size := rotateRight_length t
  rw [List.getD_eq_getElem _ _ (by omega)]
  simp [Tile.rotateRight, h]

theorem rotateRight_four_data (t : Tile)
    (h : t.data.length = t.size * t.size) :
    t.rotateRight.rotateRight.rotateRight.rotateRight.data = t.data := by
  have hl4 : t.rotateRight.rotateRight.rotateRight.rotateRight.data.length
      = t.size * t.size := by
    rw [rotateRight_length]
    simp only [rotateRight_size]
  apply List.ext_getElem
  · rw [hl4, h]
  · intro i h1 h2
    have hi : i < t.size * t.size := by rw [hl4] at h1; exact h1
    rw [← List.getD_eq_getElem _ false h1, ← List.getD_eq_getElem _ false h2]
    rw [rotateRight_data_getD _ i (by simp only [rotateRight_size]; exact hi)]
    simp only [rotateRight_size]
    rw [rotateRight_data_getD _ _
      (by simp only [rotateRight_size]; exact rotIdx_lt _ _ hi)]
    simp only [rotateRight_size]
    rw [rotateRight_data_getD _ _
      (by simp only [rotateRight_size]; exact rotIdx_lt _ _ (rotIdx_lt _ _ hi))]
    simp only [rotateRight_size]
    rw [rotateRight_data_getD _ _
      (rotIdx_lt _ _ (rotIdx_lt _ _ (rotIdx_lt _ _ hi)))]
    rw [rotIdx_four t.size i hi]

/-- Equality of tiles from equality of the three fields. -/
theorem tile_eq_of_fields (a b : Tile) (h1 : a.id = b.id) (h2 : a.size = b.size)
    (h3 : a.data = b.data) : a = b := by
  cases a; cases b; simp_all

theorem rotateRight_four (t : Tile) (h : t.data.length = t.size * t.size) :
    t.rotateRight.rotateRight.rotateRight.rotateRight = t :=
  tile_eq_of_fields _ _ rfl rfl (rotateRight_four_data t h)

theorem chunksOf_nil (n : Nat) : chunksOf n [] = [] := rfl

/-- The fuel of `chunksOfGo` is irrelevant as long as it reaches the list
length: every chunk consumes at least one element. -/
theorem chunksOfGo_irrel (n : Nat) :
    ∀ (fuel fuel' : Nat) (l : List Bool),
      l.length ≤ fuel → l.length ≤ fuel' →
      chunksOfGo n fuel l = chunksOfGo n fuel' l := by
  intro fuel
  induction fuel with
  | zero =>
    intro fuel' l h h'
    have : l = [] := List.eq_nil_of_length_eq_zero (by omega)
    subst this
    match fuel' with
    | 0 => rfl
    | fuel'' + 1 => rfl
  | succ fuel ih =>
    intro fuel' l h h'
    match l with
    | [] =>
      match fuel' with
      | 0 => rfl
      | fuel'' + 1 => rfl
    | b :: rest =>
      match fuel' with
      | 0 => simp at h'
      | fuel'' + 1 =>
        simp only [chunksOfGo]
        split
        · rfl
        · rename_i hn
          congr 1
          have hd : ((b :: rest).drop n).length ≤ rest.length := by
            rw [List.length_drop]
            simp only [List.length_cons]
            omega
          simp only [List.length_cons] at h h'
          exact ih fuel'' ((b :: rest).drop n) (by omega) (by omega)

theorem chunksOf_cons_eq (n : Nat) (l : List Bool) (hn : n ≠ 0) (hl : l ≠ []) :
    chunksOf n l = l.take n :: chunksOf n (l.drop n) := by
  obtain ⟨b, rest, rfl⟩ := List.exists_cons_of_ne_nil hl
  show chunksOfGo n (b :: rest).length (b :: rest) = _
  simp only [List.length_cons, chunksOfGo]
  rw [if_neg hn]
  congr 1
  apply chunksOfGo_irrel
  · rw [List.length_drop]
    simp only [List.length_cons]
    omega
  · exact Nat.le_refl _

theorem chunksOf_append (n : Nat) (r rest : List Bool) (hn : 0 < n)
    (hr : r.length = n) : chunksOf n (r ++ rest) = r :: chunksOf n rest := by
  have hrnil : r ≠ [] := by
    intro hh; subst hh; simp at hr; omega
  rw [chunksOf_cons_eq n _ (by omega) (by simp [hrnil])]
  rw [List.take_left' hr, List.drop_left' hr]

theorem chunksOf_flatten (n : Nat) (rows : List (List Bool)) (hn : 0 < n)
    (h : ∀ r ∈ rows, r.length = n) : chunksOf n rows.flatten = rows := by
  induction rows with
  | nil => simp [chunksOf_nil]
  | cons r rest ih =>
    rw [List.flatten_cons, chunksOf_append n r rest.flatten hn (h r (by simp))]
    rw [ih (fun r hr => h r (by simp [hr]))]

theorem flatten_chunksOf (n : Nat) (hn : 0 < n) :
    ∀ (l : List Bool), (chunksOf n l).flatten = l := by
  suffices hs : ∀ (len : Nat) (l : List Bool), l.length = len →
      (chunksOf n l).flatten = l from fun l => hs l.length l rfl
  intro len
  induction len using Nat.strong_induction_on with
  | _ len ih =>
    intro l hlen
    rcases eq_or_ne l [] with hl | hl
    · subst hl; simp [chunksOf_nil]
    · rw [chunksOf_cons_eq n l (by omega) hl, List.flatten_cons]
      have hpos : 0 < l.length := List.length_pos.mpr hl
      have hlt : (l.drop n).length < len := by
        rw [List.length_drop]
        omega
      rw [ih (l.drop n).length hlt (l.drop n) rfl, List.take_append_drop]

theorem chunksOf_length_uniform (n : Nat) (hn : 0 < n) :
    ∀ (k : Nat) (l : List Bool), l.length = n * k →
      (chunksOf n l).length = k ∧ ∀ r ∈ chunksOf n l, r.length = n := by
  intro k
  induction k with
  | zero =>
    intro l hl
    have : l = [] := List.eq_nil_of_length_eq_zero (by omega)
    subst this; simp [chunksOf_nil]
  | succ k ih =>
    intro l hl
    have hmul : n * (k + 1) = n * k + n := by ring
    have hlnil : l ≠ [] := by
      intro hh; subst hh; simp at hl; omega
    rw [chunksOf_cons_eq n l (by omega) hlnil]
    have htake : (l.take n).length = n := by
      rw [List.length_take]; omega
    have hdrop : (l.drop n).length = n * k := by
      rw [List.length_drop]; omega
    obtain ⟨h1, h2⟩ := ih (l.drop n) hdrop
    refine ⟨by simp [h1], ?_⟩
    intro r hr
    rcases List.mem_cons.mp hr with hr | hr
    · subst hr; exact htake
    · exact h2 r hr

theorem flipHorizontal_length (t : Tile) (h : t.data.length = t.size * t.size) :
    t.flipHorizontal.data.length = t.data.length := by
  rcases Nat.eq_zero_or_pos t.size with hn | hn
  · have : t.data = [] := by
      apply List.eq_nil_of_length_eq_zero; rw [h, hn]
    simp [Tile.flipHorizontal, this, chunksOf_nil]
  · simp only [Tile.flipHorizontal]
    rw [List.length_flatten, List.map_map]
    have : (List.length ∘ List.reverse) = (List.length (α := Bool)) := by
      funext r; simp
    rw [this, ← List.length_flatten, flatten_chunksOf t.size hn]

theorem flipHorizontal_twice_data (t : Tile)
    (h : t.data.length = t.size * t.size) :
    t.flipHorizontal.flipHorizontal.data = t.data := by
  rcases Nat.eq_zero_or_pos t.size with hn | hn
  · have hdata : t.data = [] := by
      apply List.eq_nil_of_length_eq_zero; rw [h, hn]
    show ((chunksOf t.flipHorizontal.size t.flipHorizontal.data).map
      List.reverse).flatten = t.data
    simp [Tile.flipHorizontal, hdata, chunksOf_nil]
  · have huni := (chunksOf_length_uniform t.size hn t.size t.data (by omega)).2
    show ((chunksOf t.flipHorizontal.size t.flipHorizontal.data).map
      List.reverse).flatten = t.data
    rw [flipHorizontal_size]
    show ((chunksOf t.size
      (((chunksOf t.size t.data).map List.reverse).flatten)).map
        List.reverse).flatten = t.data
    rw [chunksOf_flatten t.size _ hn ?side]
    case side =>
      intro r hr
      rcases List.mem_map.mp hr with ⟨r0, hr0, hrev⟩
      rw [← hrev, List.length_reverse]
      exact huni r0 hr0
    rw [List.map_map]
    have hcomp : (List.reverse ∘ List.reverse) = (id : List Bool → List Bool) := by
      funext r; simp
    rw [hcomp, List.map_id]
    exact flatten_chunksOf t.size hn t.data

theorem flipHorizontal_twice (t : Tile) (h : t.data.length = t.size * t.size) :
    t.flipHorizontal.flipHorizontal = t :=
  tile_eq_of_fields _ _ rfl rfl (flipHorizontal_twice_data t h)

/-! ### The orient loop -/

theorem orientStep_id (t : Tile) (i : Nat) : (orientStep t i).id = t.id := by
  unfold orientStep
  split <;> rfl

theorem orientStep_size (t : Tile) (i : Nat) : (orientStep t i).size = t.size := by
  unfold orientStep
  split <;> rfl

theorem orientStep_wf (t : Tile) (i : Nat) :
    (orientStep t i).data.length = (orientStep t i).size * (orientStep t i).size := by
  unfold orientStep
  split
  · rw [flipHorizontal_length _ (by rw [rotateRight_length]; simp [rotateRight_size])]
    rw [rotateRight_length]
    simp [flipHorizontal_size, rotateRight_size]
  · rw [rotateRight_length]
    simp [rotateRight_size]

theorem orientGo_false (c : EdgeConstraints) :
    ∀ (fuel i : Nat) (t u : Tile),
      orientGo c fuel i t = (false, u) → u = applySteps fuel i t := by
  intro fuel
  induction fuel with
  | zero =>
    intro i t u h
    simp only [orientGo] at h
    injection h with h1 h2
    rw [← h2]; rfl
  | succ fuel ih =>
    intro i t u h
    simp only [orientGo] at h
    split at h
    · simp at h
    · exact ih (i + 1) (orientStep t i) u h

theorem orientGo_true (c : EdgeConstraints) :
    ∀ (fuel i : Nat) (t u : Tile),
      orientGo c fuel i t = (true, u) → u.oriented c = true := by
  intro fuel
  induction fuel with
  | zero =>
    intro i t u h
    simp [orientGo] at h
  | succ fuel ih =>
    intro i t u h
    simp only [orientGo] at h
    split at h
    · rename_i hor
      injection h with h1 h2
      rw [← h2]
      exact hor
    · exact ih (i + 1) (orientStep t i) u h

theorem applySteps_eight (t : Tile) (h : t.data.length = t.size * t.size) :
    applySteps 8 0 t = t.flipHorizontal := by
  have e : applySteps 8 0 t =
      t.rotateRight.rotateRight.rotateRight.rotateRight.flipHorizontal.rotateRight.rotateRight.rotateRight.rotateRight := rfl
  rw [e, rotateRight_four t h]
  have hflip : t.flipHorizontal.data.length =
      t.flipHorizontal.size * t.flipHorizontal.size := by
    rw [flipHorizontal_length t h, flipHorizontal_size]
    exact h
  rw [rotateRight_four t.flipHorizontal hflip]

/-! ### Claims C1, C7, C8, C9 -/

/-- C1 (counterexample): `orient` can return false while leaving the tile's
data different from the data before the call — the 8 trial transforms land
the tile on its horizontally flipped orientation, not the original one. -/
theorem orient_false_changes_data :
    (failTile.orient failConstraints).1 = false ∧
      (failTile.orient failConstraints).2.data ≠ failTile.data := by
  constructor
  · decide
  · decide

/-- C1 (amended): for every well-formed tile and every constraint value, if
`orient` returns false then the tile's data after the call equals the data of
`flip_horizontal` applied to the tile before the call (the failed trial
sequence rotate×4, flip, rotate×4 composes to a net horizontal flip). -/
theorem orient_false_net_flip (t u : Tile) (c : EdgeConstraints)
    (hwf : t.data.length = t.size * t.size)
    (h : t.orient c = (false, u)) : u = t.flipHorizontal := by
  have := orientGo_false c 8 0 t u h
  rw [this, applySteps_eight t hwf]

/-- C1 (witness): the amended statement applies to the concrete failing
call. -/
theorem orient_false_net_flip_witness :
    (failTile.orient failConstraints).2 = failTile.flipHorizontal :=
  orient_false_net_flip failTile (failTile.orient failConstraints).2
    failConstraints (by decide) (by decide)

/-- C7: `a.connect(&b)` is non-empty exactly when `b.connect(&a)` is
non-empty (candidate adjacency is symmetric); the size hypotheses keep the
statement on tiles where the Rust `step_by(size)` calls are defined. -/
theorem connect_nonempty_symm (a b : Tile) (ha : 0 < a.size)
    (hb : 0 < b.size) : a.connect b ≠ [] ↔ b.connect a ≠ [] := by
  have key : ∀ x y : Tile, x.connect y ≠ [] ↔
      ∃ e, e ∈ x.edgesConnectOrder ∧ e ∈ y.edgesConnectOrder := by
    intro x y
    unfold Tile.connect
    rw [Ne, List.filter_eq_nil_iff]
    push_neg
    constructor
    · rintro ⟨e, he, hp⟩
      exact ⟨e, he, by simpa [List.elem_iff] using hp⟩
    · rintro ⟨e, he, hp⟩
      exact ⟨e, he, by simpa [List.elem_iff] using hp⟩
  rw [key a b, key b a]
  constructor
  · rintro ⟨e, h1, h2⟩; exact ⟨e, h2, h1⟩
  · rintro ⟨e, h1, h2⟩; exact ⟨e, h2, h1⟩

/-- C7 (witness): the symmetry statement applies to two concrete tiles. -/
theorem connect_nonempty_symm_witness :
    oneTileA.connect oneTileB ≠ [] ↔ oneTileB.connect oneTileA ≠ [] :=
  connect_nonempty_symm oneTileA oneTileB (by decide) (by decide)

/-- C8: on every well-formed tile four `rotate_right` calls restore the
original data, and two `flip_horizontal` calls restore the original data. -/
theorem rotate_four_flip_two_roundtrip (t : Tile)
    (h : t.data.length = t.size * t.size) :
    t.rotateRight.rotateRight.rotateRight.rotateRight.data = t.data ∧
      t.flipHorizontal.flipHorizontal.data = t.data :=
  ⟨rotateRight_four_data t h, flipHorizontal_twice_data t h⟩

/-- C8 (witness): the round-trip statement applies to the repository's own
3×3 test fixture. -/
theorem rotate_four_flip_two_roundtrip_witness :
    fixtureTile.rotateRight.rotateRight.rotateRight.rotateRight.data
        = fixtureTile.data ∧
      fixtureTile.flipHorizontal.flipHorizontal.data = fixtureTile.data :=
  rotate_four_flip_two_roundtrip fixtureTile (by decide)

/-- C9: if `orient(c)` returns true, re-invoking `orient(c)` on the resulting
tile returns true again with the same tile — the satisfying orientation now
passes the check of trial 0, before any mutation. -/
theorem orient_success_idempotent (t u : Tile) (c : EdgeConstraints)
    (h : t.orient c = (true, u)) : u.orient c = (true, u) := by
  have ho := orientGo_true c 8 0 t u h
  show orientGo c 8 0 u = (true, u)
  rw [show (8 : Nat) = 7 + 1 from rfl]
  simp [orientGo, ho]

/-- C9 (witness): the idempotence statement applies to a concrete successful
call (no constraints set, so trial 0 succeeds immediately). -/
theorem orient_success_idempotent_witness :
    (fixtureTile.orient ⟨none, none, none, none⟩) = (true, fixtureTile) :=
  orient_success_idempotent fixtureTile fixtureTile ⟨none, none, none, none⟩
    (by decide)

/-! ### The monster scan -/

theorem monsterHeight_eq : monsterHeight = 3 := rfl

theorem monsterWidth_eq : monsterWidth = 20 := rfl

theorem scanXs_no_match :
    ∀ (xs : List Nat) (s : List (List Bool)),
      (∀ x ∈ xs, windowCheck s x = false) → scanXs xs (s, false) = (s, false) := by
  intro xs
  induction xs with
  | nil => intro s h; rfl
  | cons x xs ih =>
    intro s h
    show scanXs xs
      (if windowCheck s x then (windowUpdate s x, true) else (s, false)) = (s, false)
    rw [if_neg (by simp [h x (by simp)])]
    exact ih s (fun x hx => h x (by simp [hx]))

theorem take_slice_drop (l : List (List Bool)) (y k : Nat) :
    l.take y ++ ((l.drop y).take k ++ l.drop (y + k)) = l := by
  have h1 : l.drop (y + k) = (l.drop y).drop k := by rw [List.drop_drop]
  rw [h1, List.take_append_drop, List.take_append_drop]

theorem processY_no_match (size : Nat) (rows : List (List Bool)) (y : Nat)
    (h : ∀ x ∈ List.range (size - monsterWidth),
      windowCheck ((rows.drop y).take monsterHeight) x = false) :
    processY size (rows, false) y = (rows, false) := by
  unfold processY
  simp only
  rw [scanXs_no_match _ _ h]
  simp only
  rw [List.append_assoc, take_slice_drop]

theorem scanOrientation_no_match (size : Nat) (rows : List (List Bool))
    (h : anyMonster size rows = false) :
    scanOrientation size rows = (rows, false) := by
  unfold anyMonster at h
  rw [List.any_eq_false] at h
  have hy : ∀ y ∈ List.range (rows.length - monsterHeight),
      processY size (rows, false) y = (rows, false) := by
    intro y hymem
    rw [List.mem_range] at hymem
    apply processY_no_match
    intro x hxmem
    rw [List.mem_range] at hxmem
    have hyfull := h y (List.mem_range.mpr (by omega))
    rw [Bool.not_eq_true, List.any_eq_false] at hyfull
    have := hyfull x (List.mem_range.mpr (by omega))
    simpa using this
  unfold scanOrientation
  generalize List.range (rows.length - monsterHeight) = ys at hy
  induction ys with
  | nil => rfl
  | cons y ys ih =>
    rw [List.foldl_cons, hy y (by simp)]
    exact ih (fun y hm => hy y (by simp [hm]))

theorem scanPanics_false (size : Nat) (rows : List (List Bool))
    (hlen : rows.length = size) (hsz : size = 3 ∨ 20 ≤ size) :
    scanPanics size rows = false := by
  unfold scanPanics
  rw [hlen, monsterHeight_eq, monsterWidth_eq]
  refine Bool.eq_false_iff.mpr fun hcontra => ?_
  simp only [Bool.or_eq_true, beq_iff_eq, decide_eq_true_eq, Bool.and_eq_true] at hcontra
  rcases hsz with h | h <;> omega

theorem removeMonstersGo_free :
    ∀ (fuel i : Nat) (t : Tile),
      t.data.length = t.size * t.size → (t.size = 3 ∨ 20 ≤ t.size) →
      ((statesGo fuel i t).all
        fun s => !(anyMonster s.size (chunksOf s.size s.data))) = true →
      removeMonstersGo fuel i t = some (applySteps fuel i t) := by
  intro fuel
  induction fuel with
  | zero => intro i t hwf hsz hfree; rfl
  | succ fuel ih =>
    intro i t hwf hsz hfree
    simp only [statesGo, List.all_cons, Bool.and_eq_true, Bool.not_eq_true'] at hfree
    obtain ⟨hfree0, hfreerest⟩ := hfree
    have hn : 0 < t.size := by omega
    have hrows : (chunksOf t.size t.data).length = t.size :=
      (chunksOf_length_uniform t.size hn t.size t.data hwf).1
    simp only [removeMonstersGo]
    rw [scanPanics_false t.size _ hrows hsz]
    simp only [Bool.false_eq_true, if_false]
    rw [scanOrientation_no_match t.size _ hfree0]
    simp only [if_false]
    have hflat : (chunksOf t.size t.data).flatten = t.data :=
      flatten_chunksOf t.size hn t.data
    have ht' : (⟨t.id, t.size, (chunksOf t.size t.data).flatten⟩ : Tile) = t := by
      rw [hflat]
    rw [ht']
    rw [ih (i + 1) (orientStep t i) (orientStep_wf t i)
      (by rw [orientStep_size]; exact hsz) hfreerest]
    rfl

/-! ### Claims C2, C3, C4, C10 -/

/-- C3 (counterexample): on a tile in which no orientation contains the
monster pattern, `remove_monsters` is not a no-op on the data — the loop's
net rotate/flip residue changes the stored orientation. -/
theorem remove_monsters_changes_data :
    monsterFree quietTile = true ∧
      quietTile.removeMonsters.map Tile.data ≠ some quietTile.data := by
  constructor
  · decide
  · decide

/-- C3 (amended): on every well-formed tile whose side avoids the scan's
out-of-bounds aborts (side 3 or at least 20) and in which no orientation
contains a monster window, `remove_monsters` returns without error with the
data of `flip_horizontal` of the original tile (so the data is unchanged only
up to that net flip), and the roughness afterwards equals the tile's full
set-cell count from before the call. -/
theorem remove_monsters_no_match (t : Tile)
    (hwf : t.data.length = t.size * t.size)
    (hsz : t.size = 3 ∨ 20 ≤ t.size)
    (hfree : monsterFree t = true) :
    t.removeMonsters = some t.flipHorizontal ∧
      t.flipHorizontal.roughness = t.roughness := by
  constructor
  · show removeMonstersGo 8 0 t = _
    rw [removeMonstersGo_free 8 0 t hwf hsz hfree, applySteps_eight t hwf]
  · have hn : 0 < t.size := by omega
    show t.flipHorizontal.data.countP (fun b => b) = t.data.countP (fun b => b)
    show (((chunksOf t.size t.data).map List.reverse).flatten).countP
      (fun b => b) = t.data.countP (fun b => b)
    rw [List.countP_flatten, List.map_map]
    have hcomp : (List.countP (fun b => b) ∘ List.reverse)
        = List.countP (α := Bool) (fun b => b) := by
      funext r; simp [List.countP_reverse]
    rw [hcomp, ← List.countP_flatten, flatten_chunksOf t.size hn]

/-- C3 (witness): the amended statement applies to the concrete quiet
tile. -/
theorem remove_monsters_no_match_witness :
    quietTile.removeMonsters = some quietTile.flipHorizontal ∧
      quietTile.flipHorizontal.roughness = quietTile.roughness :=
  remove_monsters_no_match quietTile (by decide) (by decide) (by decide)

theorem processY_no_wide (size : Nat) (rows : List (List Bool)) (y : Nat)
    (h : size ≤ monsterWidth) : processY size (rows, false) y = (rows, false) := by
  apply processY_no_match
  intro x hx
  rw [List.mem_range] at hx
  exact absurd hx (by omega)

theorem scanOrientation_no_wide (size : Nat) (rows : List (List Bool))
    (h : size ≤ monsterWidth) : scanOrientation size rows = (rows, false) := by
  unfold scanOrientation
  generalize List.range (rows.length - monsterHeight) = ys
  induction ys with
  | nil => rfl
  | cons y ys ih =>
    rw [List.foldl_cons, processY_no_wide size rows y h]
    exact ih

theorem removeMonstersGo_no_wide :
    ∀ (fuel i : Nat) (t : Tile),
      t.data.length = t.size * t.size → t.size = 20 →
      removeMonstersGo fuel i t = some (applySteps fuel i t) := by
  intro fuel
  induction fuel with
  | zero => intro i t hwf hsz; rfl
  | succ fuel ih =>
    intro i t hwf hsz
    have hn : 0 < t.size := by omega
    have hrows : (chunksOf t.size t.data).length = t.size :=
      (chunksOf_length_uniform t.size hn t.size t.data hwf).1
    simp only [removeMonstersGo]
    rw [scanPanics_false t.size _ hrows (Or.inr (by omega))]
    simp only [Bool.false_eq_true, if_false]
    rw [scanOrientation_no_wide t.size _ (by rw [monsterWidth_eq]; omega)]
    simp only [if_false]
    have ht' : (⟨t.id, t.size, (chunksOf t.size t.data).flatten⟩ : Tile) = t := by
      rw [flatten_chunksOf t.size hn t.data]
    rw [ht']
    rw [ih (i + 1) (orientStep t i) (orientStep_wf t i)
      ((orientStep_size t i).trans hsz)]
    rfl

set_option maxRecDepth 40000 in
/-- C2: the window at position (0, 0) — within the claimed inclusive bounds
`y ≤ size - height`, `x ≤ size - width` — matches the pattern, yet
`remove_monsters` marks nothing: its `x` loop runs over the exclusive range
`0..size - width`, which is empty at `size = 20`, so no window is examined in
any orientation and the tile is merely left with the loop's net horizontal
flip. -/
theorem remove_monsters_misses_boundary_window :
    anyMonster 20 (chunksOf 20 monsterTile.data) = true ∧
      monsterTile.removeMonsters = some monsterTile.flipHorizontal := by
  constructor
  · decide
  · show removeMonstersGo 8 0 monsterTile = _
    rw [removeMonstersGo_no_wide 8 0 monsterTile (by decide) rfl,
      applySteps_eight monsterTile (by decide)]

/-- C4: `Tile::parse` accepts an input whose second row has a different
length from the first — no row-length consistency check exists, so the tile
is built with 15 data cells against a declared 4×4 geometry. -/
theorem tile_parse_accepts_ragged_rows :
    (raggedLines.headD "").data.length = 4 ∧
      (raggedLines.getD 1 "").data.length = 3 ∧
      (∀ s ∈ raggedLines, ∀ c ∈ s.data, c = '.' ∨ c = '#') ∧
      (tileParse raggedLines 0).isOk = true ∧
      ((tileParse raggedLines 0).toOption.map
        fun p => (p.1.size, p.1.data.length)) = some (4, 15) := by
  refine ⟨by decide, by decide, by decide, by decide, by decide⟩

/-- C10: on the empty input `parse_tiles` yields zero tiles, the
perfect-square check passes (`sqrt_exact 0 = Some 0`), and `Grid::parse`
neither returns a grid nor an error value: the unguarded `parsed_tiles[0]`
indexing aborts (modelled by `none`). -/
theorem grid_parse_empty_input_panics :
    parseTiles ([] : List String) = Except.ok [] ∧ sqrtExact 0 = some 0 ∧
      gridParse [] = none :=
  ⟨rfl, rfl, rfl⟩

/-! ### Claim C6 -/

theorem writeRow_valid (s : String) (d : List Bool)
    (h : ∀ c ∈ s.data, c = '.' ∨ c = '#') :
    writeRow d s = Except.ok (d ++ lineBits s) := by
  unfold writeRow lineBits
  generalize s.data = cs at h
  induction cs generalizing d with
  | nil => simp only [List.foldlM_nil, List.map_nil, List.append_nil]; rfl
  | cons c cs ih =>
    rw [List.foldlM_cons]
    rcases h c (by simp) with hc | hc <;> subst hc <;> simp only [reduceIte] <;>
      · show (cs.foldlM _ (d ++ [_]) : Except String (List Bool)) = _
        rw [ih _ (fun c hc => h c (by simp [hc]))]
        simp

theorem rowsFold_valid :
    ∀ (rows : List String) (d : List Bool) (k : Nat),
      (∀ s ∈ rows, ∀ c ∈ s.data, c = '.' ∨ c = '#') →
      (rows.foldlM (fun (acc : List Bool × Nat) row =>
          match writeRow acc.1 row with
          | Except.error e => Except.error e
          | Except.ok dd => Except.ok (dd, acc.2 + 1)) (d, k)
        : Except String (List Bool × Nat))
        = Except.ok (d ++ (rows.map lineBits).flatten, k + rows.length) := by
  intro rows
  induction rows with
  | nil => intro d k h; simp only [List.foldlM_nil, List.map_nil,
      List.flatten_nil, List.append_nil, List.length_nil, Nat.add_zero]; rfl
  | cons s rows ih =>
    intro d k h
    rw [List.foldlM_cons]
    simp only
    rw [writeRow_valid s d (h s (by simp))]
    show (rows.foldlM _ (d ++ lineBits s, k + 1) : Except String _) = _
    rw [ih (d ++ lineBits s) (k + 1) (fun s hs => h s (by simp [hs]))]
    simp only [List.map_cons, List.flatten_cons, List.append_assoc,
      List.length_cons]
    congr 2
    omega

theorem tileParse_wf (r0 : String) (rest : List String) (id n : Nat)
    (hn : r0.data.length = n) (h1 : 0 < n) (h32 : n ≤ 32)
    (hlen : rest.length = n - 1)
    (hvalid : ∀ s ∈ r0 :: rest, ∀ c ∈ s.data, c = '.' ∨ c = '#') :
    tileParse (r0 :: rest) id =
      if adjacentDistinct (List.insertionSort (· ≤ ·)
          (Tile.edgesParseOrder ⟨id, n, ((r0 :: rest).map lineBits).flatten⟩))
      then Except.ok ((⟨id, n, ((r0 :: rest).map lineBits).flatten⟩ : Tile), [])
      else Except.error "Ambiguous edge values" := by
  unfold tileParse
  simp only [hn]
  rw [if_neg (by omega), if_neg (by omega)]
  rw [writeRow_valid r0 [] (hvalid r0 (by simp))]
  simp only [List.nil_append]
  rw [List.take_of_length_le (by omega)]
  rw [rowsFold_valid rest (lineBits r0) 1 (fun s hs => hvalid s (by simp [hs]))]
  simp only
  rw [if_neg (show ¬(1 + rest.length ≠ n) by omega)]
  rw [List.drop_eq_nil_of_le (show rest.length ≤ n - 1 by omega)]
  simp only [List.map_cons, List.flatten_cons]

theorem adjacentDistinct_sorted (l : List Nat) (hs : List.Sorted (· ≤ ·) l) :
    adjacentDistinct l = true ↔ l.Nodup := by
  induction l with
  | nil => simp [adjacentDistinct]
  | cons a t iha =>
    cases t with
    | nil => simp [adjacentDistinct]
    | cons b t2 =>
      rw [List.sorted_cons] at hs
      obtain ⟨hab, hs2⟩ := hs
      have iha2 := iha hs2
      have hble : ∀ x ∈ t2, b ≤ x := (List.sorted_cons.mp hs2).1
      show (((a, b) :: (b :: t2).zip t2).all fun p => p.1 != p.2) = true ↔ _
      rw [List.all_cons, Bool.and_eq_true, List.nodup_cons]
      constructor
      · rintro ⟨hne, hrest⟩
        have hab' : a ≠ b := by simpa using hne
        have hnodup2 := iha2.mp hrest
        refine ⟨?_, hnodup2⟩
        intro hmem
        rcases List.mem_cons.mp hmem with hmem | hmem
        · exact hab' hmem
        · have h1 : a ≤ b := hab b (by simp)
          have h2 : b ≤ a := hble a hmem
          exact hab' (Nat.le_antisymm h1 h2)
      · rintro ⟨hnotmem, hnodup2⟩
        have hab' : a ≠ b := fun hh => hnotmem (by rw [hh]; exact List.mem_cons_self b t2)
        exact ⟨by simpa using hab', iha2.mpr hnodup2⟩

theorem adjacentDistinct_insertionSort (l : List Nat) :
    adjacentDistinct (List.insertionSort (· ≤ ·) l) = true ↔ l.Nodup := by
  rw [adjacentDistinct_sorted _ (List.sorted_insertionSort (· ≤ ·) l)]
  exact List.Perm.nodup_iff (List.perm_insertionSort (· ≤ ·) l)

/-- C6: on a well-formed square tile (a non-empty square of `.`/`#` rows of
side at most 32), `Tile::parse` succeeds if and only if the tile's 8 border
fingerprints are pairwise distinct; in particular any coincidence among the
8 yields the "Ambiguous edge values" parse error. -/
theorem tile_parse_ok_iff_distinct_edges (r0 : String) (rest : List String)
    (id n : Nat) (hn : r0.data.length = n) (h1 : 0 < n) (h32 : n ≤ 32)
    (hlen : rest.length = n - 1)
    (hrowlen : ∀ s ∈ r0 :: rest, s.data.length = n)
    (hvalid : ∀ s ∈ r0 :: rest, ∀ c ∈ s.data, c = '.' ∨ c = '#') :
    ((tileParse (r0 :: rest) id).isOk = true ↔
      (Tile.edgesParseOrder
        ⟨id, n, ((r0 :: rest).map lineBits).flatten⟩).Nodup) := by
  rw [tileParse_wf r0 rest id n hn h1 h32 hlen hvalid]
  rw [← adjacentDistinct_insertionSort]
  split
  · rename_i hd
    exact iff_of_true rfl hd
  · rename_i hd
    exact iff_of_false Bool.false_ne_true hd

/-- C6 (witness): the acceptance equivalence applies to a concrete
well-formed 4×4 tile. -/
theorem tile_parse_ok_iff_distinct_edges_witness :
    ((tileParse distinctTileLines 9).isOk = true ↔
      (Tile.edgesParseOrder
        ⟨9, 4, ((distinctTileLines.map lineBits)).flatten⟩).Nodup) :=
  tile_parse_ok_iff_distinct_edges "##.." ["#..#", "....", "#..."] 9 4
    (by decide) (by decide) (by decide) (by decide) (by decide) (by decide)

/-! ### Claim C5 -/

theorem orientGo_id_size (c : EdgeConstraints) :
    ∀ (fuel i : Nat) (t : Tile),
      (orientGo c fuel i t).2.id = t.id ∧ (orientGo c fuel i t).2.size = t.size := by
  intro fuel
  induction fuel with
  | zero => intro i t; exact ⟨rfl, rfl⟩
  | succ fuel ih =>
    intro i t
    simp only [orientGo]
    split
    · exact ⟨rfl, rfl⟩
    · exact ⟨((ih (i + 1) (orientStep t i)).1).trans (orientStep_id t i),
        ((ih (i + 1) (orientStep t i)).2).trans (orientStep_size t i)⟩

theorem orient_id_size (t : Tile) (c : EdgeConstraints) :
    (t.orient c).2.id = t.id ∧ (t.orient c).2.size = t.size :=
  orientGo_id_size c 8 0 t

theorem orientScan_perm_ids (c : EdgeConstraints) :
    ∀ (pool : List Tile) (f : Tile) (rest' : List Tile),
      orientScan c pool = Sum.inr (f, rest') →
      (f.id :: rest'.map Tile.id).Perm (pool.map Tile.id) := by
  intro pool
  induction pool with
  | nil => intro f r h; simp [orientScan] at h
  | cons t rest ih =>
    intro f r h
    simp only [orientScan] at h
    split at h
    · injection h with h'
      injection h' with h1 h2
      subst h1 h2
      rw [List.map_cons, (orient_id_size t c).1]
    · split at h
      · exact absurd h (by simp)
      · rename_i found rest2 heq
        injection h with h'
        injection h' with h1 h2
        subst h1 h2
        have hperm := ih found rest2 heq
        rw [List.map_cons, List.map_cons, (orient_id_size t c).1]
        exact (List.Perm.swap t.id found.id (rest2.map Tile.id)).trans
          (hperm.cons t.id)

theorem buildGridGo_perm_ids :
    ∀ (fuel size : Nat) (pool tiles res : List Tile),
      buildGridGo fuel size pool tiles = Except.ok res →
      (res.map Tile.id).Perm (tiles.map Tile.id ++ pool.map Tile.id) := by
  intro fuel
  induction fuel with
  | zero =>
    intro size pool tiles res h
    match pool with
    | [] =>
      injection h with h1
      subst h1; simp
    | t :: rest => simp [buildGridGo] at h
  | succ fuel ih =>
    intro size pool tiles res h
    match pool with
    | [] =>
      injection h with h1
      subst h1; simp
    | t :: rest =>
      simp only [buildGridGo] at h
      rcases hscan : orientScan (cellConstraints size tiles) (t :: rest) with
        p | ⟨found, pool'⟩
      · rw [hscan] at h; exact absurd h (by simp)
      · rw [hscan] at h
        have hstep := ih size pool' (tiles ++ [found]) res h
        have hinner := orientScan_perm_ids (cellConstraints size tiles)
          (t :: rest) found pool' hscan
        have he : (tiles ++ [found]).map Tile.id ++ pool'.map Tile.id
            = tiles.map Tile.id ++ (found.id :: pool'.map Tile.id) := by
          simp
        rw [he] at hstep
        exact hstep.trans (List.Perm.append_left _ hinner)

theorem orientAnyPairs_id_size :
    ∀ (ps : List (Nat × Nat)) (t : Tile),
      (orientAnyPairs ps t).2.id = t.id ∧ (orientAnyPairs ps t).2.size = t.size := by
  intro ps
  induction ps with
  | nil => intro t; exact ⟨rfl, rfl⟩
  | cons p ps ih =>
    intro t
    obtain ⟨e1, e2⟩ := p
    simp only [orientAnyPairs]
    split
    · exact orient_id_size t _
    · exact ⟨((ih _).1).trans (orient_id_size t _).1,
        ((ih _).2).trans (orient_id_size t _).2⟩

theorem findCornerScanGo_lt (pool : List Tile) :
    ∀ (l : List Tile) (i idx : Nat) (e1 e2 : List Nat),
      findCornerScanGo pool i l = some (idx, e1, e2) →
      i ≤ idx ∧ idx < i + l.length := by
  intro l
  induction l with
  | nil => intro i idx e1 e2 h; simp [findCornerScanGo] at h
  | cons t rest ih =>
    intro i idx e1 e2 h
    simp only [findCornerScanGo] at h
    rcases hc : connectsOf pool t with _ | ⟨x, _ | ⟨y, _ | ⟨z, zs⟩⟩⟩ <;>
      rw [hc] at h
    · have := ih (i + 1) idx e1 e2 h
      simp only [List.length_cons]; omega
    · have := ih (i + 1) idx e1 e2 h
      simp only [List.length_cons]; omega
    · injection h with h'
      injection h' with h1 h2
      subst h1
      simp only [List.length_cons]; omega
    · have := ih (i + 1) idx e1 e2 h
      simp only [List.length_cons]; omega

theorem set_getD_id_self (l : List Nat) (n : Nat) (h : n < l.length) :
    l.set n (l.getD n 0) = l := by
  rw [List.getD_eq_getElem _ _ h]
  apply List.ext_getElem
  · simp
  · intro i h1 h2
    by_cases hi : i = n
    · subst hi; simp
    · rw [List.getElem_set_ne]
      omega

theorem findCorner_ids (pool : List Tile) (copt : Option Nat)
    (pool' : List Tile) (h : findCorner pool = (copt, pool')) :
    pool'.map Tile.id = pool.map Tile.id ∧
      ∀ idx, copt = some idx → idx < pool.length := by
  unfold findCorner at h
  rcases hscan : findCornerScanGo pool 0 pool with _ | ⟨idx, e1, e2⟩
  · rw [hscan] at h
    injection h with h1 h2
    subst h2
    exact ⟨rfl, fun i hi => by rw [← h1] at hi; exact absurd hi (by simp)⟩
  · rw [hscan] at h
    simp only at h
    injection h with h1 h2
    have hlt : idx < pool.length := by
      have := findCornerScanGo_lt pool pool 0 idx e1 e2 hscan
      omega
    constructor
    · rw [← h2, List.map_set,
        (orientAnyPairs_id_size (cornerPairs e1 e2) (pool.getD idx ⟨0, 0, []⟩)).1]
      have hgd : (pool.getD idx ⟨0, 0, []⟩).id = (pool.map Tile.id).getD idx 0 := by
        rw [List.getD_eq_getElem _ _ hlt,
          List.getD_eq_getElem _ _ (by simpa using hlt)]
        simp
      rw [hgd, set_getD_id_self _ idx (by simpa using hlt)]
    · intro i hi
      rw [← h1] at hi
      split at hi
      · injection hi with hidx
        subst hidx
        exact hlt
      · exact absurd hi (by simp)

theorem getD_cons_eraseIdx_perm :
    ∀ (pool : List Tile) (corner : Nat), corner < pool.length →
      (pool.getD corner ⟨0, 0, []⟩ :: pool.eraseIdx corner).Perm pool := by
  intro pool
  induction pool with
  | nil => intro c h; simp at h
  | cons t rest ih =>
    intro c h
    cases c with
    | zero => simp
    | succ c =>
      simp only [List.getD_cons_succ, List.eraseIdx_cons_succ]
      exact (List.Perm.swap t (rest.getD c ⟨0, 0, []⟩) (rest.eraseIdx c)).trans
        ((ih c (by simpa using h)).cons t)

theorem sqrtExactGo_sound (count : Nat) :
    ∀ (fuel s r : Nat), sqrtExactGo count fuel s = some r → r * r = count := by
  intro fuel
  induction fuel with
  | zero => intro s r h; simp [sqrtExactGo] at h
  | succ fuel ih =>
    intro s r h
    simp only [sqrtExactGo] at h
    split at h
    · rename_i heq
      injection h with h1
      subst h1
      exact heq
    · split at h
      · exact absurd h (by simp)
      · exact ih (s + 1) r h

theorem sqrtExact_sound (count r : Nat) (h : sqrtExact count = some r) :
    r * r = count :=
  sqrtExactGo_sound count (count + 2) 0 r h

/-- C5: whenever `Grid::parse` returns a grid, the grid holds exactly
`size * size` tiles, `size` being the exact integer square root of the
parsed tile count, and pairwise-distinct parsed ids remain pairwise
distinct among the placed tiles (assembly only moves tiles between the pool
and the grid, re-orienting but never duplicating or dropping them). -/
theorem grid_parse_complete (lines : List String) (parsed : List Tile)
    (g : Grid) (hp : parseTiles lines = Except.ok parsed)
    (hg : gridParse lines = some (Except.ok g)) :
    g.tiles.length = g.size * g.size ∧ g.size * g.size = parsed.length ∧
      ((parsed.map Tile.id).Nodup → (g.tiles.map Tile.id).Nodup) := by
  unfold gridParse at hg
  split at hg
  · rename_i e he
    rw [hp] at he
    exact absurd he (by simp)
  · rename_i parsedTiles hpt
    rw [hp] at hpt
    injection hpt with hpt'
    subst hpt'
    split at hg
    · exact absurd hg (by simp)
    · rename_i size hsq
      have hsz := sqrtExact_sound _ _ hsq
      split at hg
      · exact absurd hg (by simp)
      · rename_i t0 prest
        split at hg
        · exact absurd hg (by simp)
        · rename_i res corner pool hfc
          obtain ⟨hids, hinrange⟩ := findCorner_ids (t0 :: prest) (some corner)
            pool hfc
          split at hg
          · exact absurd hg (by simp)
          · rename_i tiles hbg
            injection hg with hg'
            injection hg' with hg''
            subst hg''
            have hpoollen : pool.length = (t0 :: prest).length := by
              have := congrArg List.length hids
              simpa using this
            have hcornerlt : corner < pool.length := by
              rw [hpoollen]; exact hinrange corner rfl
            have hperm := buildGridGo_perm_ids pool.length size
              (pool.eraseIdx corner) [pool.getD corner ⟨0, 0, []⟩] tiles hbg
            have hpoolperm : ((pool.getD corner ⟨0, 0, []⟩ ::
                pool.eraseIdx corner).map Tile.id).Perm (pool.map Tile.id) :=
              (getD_cons_eraseIdx_perm pool corner hcornerlt).map Tile.id
            have he2 : [pool.getD corner ⟨0, 0, []⟩].map Tile.id ++
                (pool.eraseIdx corner).map Tile.id
                = (pool.getD corner ⟨0, 0, []⟩ ::
                    pool.eraseIdx corner).map Tile.id := by simp
            rw [he2] at hperm
            have hall : (tiles.map Tile.id).Perm ((t0 :: prest).map Tile.id) :=
              hids ▸ (hperm.trans hpoolperm)
            have hlen : tiles.length = (t0 :: prest).length := by
              have := hall.length_eq
              simpa using this
            refine ⟨?_, ?_, ?_⟩
            · simp only
              omega
            · simp only
              omega
            · intro hnodup
              simp only
              exact (hall.nodup_iff).mpr hnodup

set_option maxRecDepth 100000 in
set_option maxHeartbeats 4000000 in
/-- C5 (witness): the completeness statement applies to the concrete
assembling input. -/
theorem grid_parse_complete_witness :
    gridResult.tiles.length = gridResult.size * gridResult.size ∧
      gridResult.size * gridResult.size = gridParsed.length ∧
      ((gridParsed.map Tile.id).Nodup → (gridResult.tiles.map Tile.id).Nodup) :=
  grid_parse_complete gridLines gridParsed gridResult (by rfl) (by rfl)

end Day20
